import Mathlib

/-!
Verification of the weex-loader component compiler.

This file gives a shallow embedding, in Lean 4, of the compiler-relevant
subset of the repository:

* `src/src/loader.js`   — the orchestrator (loader-string resolution, the
  component reference graph kept in the process-wide `elements` map, page
  assembly);
* `src/src/json.js`     — the card-literal normalizer (comment stripping,
  event/binding rewriting, props/actions/data validation);
* the utility module (unnamed source file) — `logWarn`, `stringifyLoaders`,
  `consumeMap`, `splitSourceLine`, `getNameByPath`, `getRequireString`.

JavaScript objects are embedded as insertion-ordered association lists,
JavaScript strings as Lean `String`s, and the filesystem / webpack
collaborators as explicit function parameters.  External collaborators that
the repository only calls (webpack's loader-utils, the dynamic literal
evaluator, the `bind`/`resource-reference-script` helpers that are not part
of the compiler core) are modelled from the specification and are marked as
such in their doc comments.
-/

namespace WeexLoader

/-! ## Basic JavaScript string helpers -/

/-- Model of JavaScript's `String.prototype.startsWith`: the first
`p.length` characters of `s` equal `p`. -/
def strStartsWith (s p : String) : Bool :=
  s.data.take p.data.length = p.data


/-- Model of JavaScript's `String.prototype.endsWith`. -/
def strEndsWith (s p : String) : Bool :=
  s.data.drop (s.data.length - p.data.length) = p.data ∧ p.data.length ≤ s.data.length


/-- First index at which pattern `p` occurs in `l`, if any. -/
def listIndexOf (l p : List Char) : Option Nat :=
  if p.isPrefixOf l then some 0
  else match l with
    | [] => if p = [] then some 0 else none
    | _ :: t => (listIndexOf t p).map (· + 1)


/-- Model of JavaScript's `String.prototype.replace` with a *string* pattern:
only the first occurrence is replaced; if the pattern does not occur the
string is returned unchanged. -/
def replaceFirst (s pat repl : String) : String :=
  match listIndexOf s.data pat.data with
  | none => s
  | some i => String.mk (s.data.take i ++ repl.data ++ s.data.drop (i + pat.data.length))


/-- True if pattern `p` occurs somewhere in `s` (JavaScript's
`String.prototype.match` with an unanchored literal regex, used as a test). -/
def strContains (s p : String) : Bool :=
  (listIndexOf s.data p.data).isSome


/-- Replace every occurrence of the (non-empty) pattern, resuming after
each replacement, as a JavaScript global literal-regex replace does.  Fuel
is the list length plus one, which suffices since every step consumes at
least one character. -/
def replaceAllSub (pat repl : List Char) : Nat → List Char → List Char
  | 0, cs => cs
  | _ + 1, [] => []
  | fuel + 1, c :: cs =>
    if pat ≠ [] ∧ pat.isPrefixOf (c :: cs) then
      repl ++ replaceAllSub pat repl fuel ((c :: cs).drop pat.length)
    else c :: replaceAllSub pat repl fuel cs


/-- Model of JavaScript's `String.prototype.replace` with a global literal
regex: all occurrences replaced left to right. -/
def strReplaceAll (s pat repl : String) : String :=
  String.mk (replaceAllSub pat.data repl.data (s.data.length + 1) s.data)


/-! ## Transform stages and `stringifyLoaders` (utility module) -/

/-- A value of a loader-query entry, as the JavaScript code distinguishes
them: `null`/`undefined`, the boolean `true`, an array (elements already in
string form, as template-literal interpolation would render them), or any
other value rendered by string interpolation. -/
inductive QVal where
  | qnull : QVal
  | qtrue : QVal
  | qarr : List String → QVal
  | qval : String → QVal
deriving DecidableEq, Repr


/-- One element of the array handed to `stringifyLoaders`: either a plain
string, or an object with a `name` and an optional `query` map (insertion
ordered). -/
inductive LoaderSpec where
  | str : String → LoaderSpec
  | obj : String → Option (List (String × QVal)) → LoaderSpec
deriving DecidableEq, Repr


/-- The body of the `for (const k in loader.query)` loop of
`stringifyLoaders`: render one key/value pair onto the accumulated `query`
array (`null`/`undefined` values are skipped, `true` pushes the bare key, an
array pushes `k[]=` with comma-joined elements, anything else pushes
`k=value`). -/
def pushQueryPair (acc : List String) (kv : String × QVal) : List String :=
  match kv.2 with
  | .qnull => acc
  | .qtrue => acc ++ [kv.1]
  | .qarr vs => acc ++ [kv.1 ++ "[]=" ++ String.intercalate "," vs]
  | .qval v => acc ++ [kv.1 ++ "=" ++ v]


/-- Faithful model of `stringifyLoaders` from the utility module: each
loader maps to `name?k1=v1&k2…` (strings pass through unchanged) and the
results are joined with `!`. -/
def stringifyLoaders (loaders : List LoaderSpec) : String :=
  String.intercalate "!" (loaders.map fun l =>
    match l with
    | .str s => s
    | .obj name q =>
      let query := (q.getD []).foldl pushQueryPair []
      name ++ (if query.length ≠ 0 then "?" ++ String.intercalate "&" query else ""))


/-- The chain-descriptor syntax as the specification words it: stage names
joined by the separator `!`; a stage with a non-empty rendered query appends
`?` and `&`-joined pairs in insertion order, boolean-true flags as bare
keys, list values as `key[]=v1,v2,...`, null/absent values omitted. -/
def chainDescriptorSpec (loaders : List LoaderSpec) : String :=
  String.intercalate "!" (loaders.map fun l =>
    match l with
    | .str s => s
    | .obj name q =>
      let pairs := (q.getD []).filterMap fun kv =>
        match kv.2 with
        | .qnull => none
        | .qtrue => some kv.1
        | .qarr vs => some (kv.1 ++ "[]=" ++ String.intercalate "," vs)
        | .qval v => some (kv.1 ++ "=" ++ v)
      if pairs = [] then name else name ++ "?" ++ String.intercalate "&" pairs)


/-! ## Diagnostics sink: `logWarn` (utility module) -/

/-- One entry of the `logs` array handed to `logWarn`.  `line`/`column`
are 0 when absent: the JavaScript code tests them for truthiness and both
`undefined` and `0` are falsy, so 0 models both. -/
structure LogEntry where
  reason : String
  line : Nat := 0
  column : Nat := 0
deriving DecidableEq, Repr


/-- Which webpack channel an emission goes to (`emitWarning` or `emitError`). -/
inductive EmitKind where
  | warning : EmitKind
  | error : EmitKind
deriving DecidableEq, Repr


/-- One emission performed by `logWarn`. -/
structure Emit where
  kind : EmitKind
  message : String
deriving DecidableEq, Repr


/-- The Note-branch emission of `logWarn`. -/
def noteEmit (rp : String) (e : LogEntry) : Emit :=
  if e.line ≠ 0 ∧ e.column ≠ 0 then
    ⟨.warning, "noteStartNOTE File：" ++ rp ++ ":" ++ toString e.line ++ ":" ++
      toString e.column ++ "\n " ++ replaceFirst e.reason "NOTE: " "" ++ "noteEnd"⟩
  else
    ⟨.warning, "noteStartNOTE File：" ++ rp ++ "\n " ++
      replaceFirst e.reason "NOTE: " "" ++ "noteEnd"⟩


/-- The Warn-branch emission of `logWarn`. -/
def warnEmit (rp : String) (e : LogEntry) : Emit :=
  if e.line ≠ 0 ∧ e.column ≠ 0 then
    ⟨.warning, "warnStartWARNING File：" ++ rp ++ ":" ++ toString e.line ++ ":" ++
      toString e.column ++ "\n " ++ replaceFirst e.reason "WARNING: " "" ++ "warnEnd"⟩
  else
    ⟨.warning, "warnStartWARNING File：" ++ rp ++ "\n " ++
      replaceFirst e.reason "WARNING: " "" ++ "warnEnd"⟩


/-- The Error-branch emission of `logWarn`. -/
def errorEmit (rp : String) (e : LogEntry) : Emit :=
  if e.line ≠ 0 ∧ e.column ≠ 0 then
    ⟨.error, "errorStartERROR File：" ++ rp ++ ":" ++ toString e.line ++ ":" ++
      toString e.column ++ "\n " ++ replaceFirst e.reason "ERROR: " "" ++ "errorEnd"⟩
  else
    ⟨.error, "errorStartERROR File：" ++ rp ++ "\n " ++
      replaceFirst e.reason "ERROR: " "" ++ "errorEnd"⟩


/-- The body of `logWarn`'s `forEach`: for one entry, the optional emission
and whether this entry sets the failed flag.  Mirrors the
`if NOTE… else if WARN… else if ERROR…` chain of the source, with
`lv` the configured `process.env.logLevel`. -/
def logWarnStep (lv : Nat) (rp : String) (e : LogEntry) : Option Emit × Bool :=
  if strStartsWith e.reason "NOTE" = true ∧ lv ≤ 1 then (some (noteEmit rp e), false)
  else if strStartsWith e.reason "WARN" = true ∧ lv ≤ 2 then (some (warnEmit rp e), false)
  else if strStartsWith e.reason "ERROR" = true ∧ lv ≤ 3 then (some (errorEmit rp e), true)
  else (none, false)


/-- The `forEach` of `logWarn`, collecting emissions in order and
accumulating the failed flag (which is only ever set, never cleared). -/
def logWarnGo (lv : Nat) (rp : String) : List LogEntry → List Emit × Bool
  | [] => ([], false)
  | e :: es =>
    let s := logWarnStep lv rp e
    let r := logWarnGo lv rp es
    (s.1.toList ++ r.1, s.2 || r.2)


/-- Faithful model of `logWarn` from the utility module: emissions and the
returned failed flag.  The whole body is guarded by `logLevel > 0`. -/
def logWarn (lv : Nat) (rp : String) (logs : List LogEntry) : List Emit × Bool :=
  if 0 < lv then logWarnGo lv rp logs else ([], false)


/-! Severity prefixes have distinct head characters, so the branches of
`logWarnStep` are mutually exclusive.  The next lemmas make that usable. -/

/-! ## Card-literal expression rewriting (src/src/json.js)

The three global regex replaces of `parseCard` are embedded as explicit
leftmost-match scanners.  JavaScript regex semantics modelled: `\s` as the
ASCII whitespace characters, `\w` as `[A-Za-z0-9_]`, `.` as any character
other than a line terminator (`\n`/`\r`), greedy quantifiers with
backtracking, and `/g` replacement resuming after each match. -/

/-- JavaScript `\s` (ASCII subset; the code never feeds it other spaces). -/
def isJsSpace (c : Char) : Bool :=
  c = ' ' ∨ c = '\t' ∨ c = '\n' ∨ c = '\r' ∨ c = '\x0b' ∨ c = '\x0c'


/-- JavaScript `\w`. -/
def isWordChar (c : Char) : Bool :=
  c.isAlphanum ∨ c = '_'


/-- Line terminators excluded by JavaScript's `.`. -/
def isLineTermChar (c : Char) : Bool :=
  c = '\n' ∨ c = '\r'


/-- Index of the last occurrence of quote `q` in `seg` at position ≥ 1
(the greedy `.+` before the closing quote must consume at least one
character). -/
def lastQuoteIdx (q : Char) (seg : List Char) : Option Nat :=
  (List.range seg.length).foldl
    (fun acc i => if seg.getD i ' ' = q ∧ 1 ≤ i then some i else acc) none


/-- Match one alternative `q\s*\$event\..+q` of `REG_EVENT_STRING` at the
head of `cs`, returning the matched characters and the remainder.  The
greedy `.+` with a final quote amounts to closing at the last `q` on the
same line. -/
def matchQuotedEvent (q : Char) (cs : List Char) : Option (List Char × List Char) :=
  match cs with
  | [] => none
  | c :: rest =>
    if c = q then
      let ws := rest.takeWhile isJsSpace
      let afterWs := rest.drop ws.length
      if "$event.".data.isPrefixOf afterWs then
        let body := afterWs.drop 7
        let seg := body.takeWhile (fun ch => ! isLineTermChar ch)
        match lastQuoteIdx q seg with
        | some i => some (c :: (ws ++ "$event.".data ++ seg.take i ++ [q]), body.drop (i + 1))
        | none => none
      else none
    else none


/-- Match `REG_EVENT_STRING = /("\s*\$event\..+")|('\s*\$event\..+')/` at
the head of `cs` (first alternative preferred, as in JavaScript). -/
def matchEventString (cs : List Char) : Option (List Char × List Char) :=
  match matchQuotedEvent '"' cs with
  | some r => some r
  | none => matchQuotedEvent '\'' cs


/-- Match `REG_EVENT = /\$event\.[\w]+/` at the head of `cs`. -/
def matchEvent (cs : List Char) : Option (List Char × List Char) :=
  if "$event.".data.isPrefixOf cs then
    let w := (cs.drop 7).takeWhile isWordChar
    if w.isEmpty then none
    else some ("$event.".data ++ w, cs.drop (7 + w.length))
  else none


/-- Match `REG_THIS = /this\..*/` at the head of `cs`: the literal `this.`
followed greedily by the rest of the line. -/
def matchThis (cs : List Char) : Option (List Char × List Char) :=
  if "this.".data.isPrefixOf cs then
    let tail := (cs.drop 5).takeWhile (fun ch => ! isLineTermChar ch)
    some ("this.".data ++ tail, cs.drop (5 + tail.length))
  else none


/-- Global (`/g`) replace: scan left to right; at each position emit either
the replacement of the match starting there (resuming after it) or the
character itself.  Fuel is the string length plus one, which suffices since
every step consumes at least one character. -/
def replaceScan (matchAt : List Char → Option (List Char × List Char))
    (repl : List Char → List Char) : Nat → List Char → List Char
  | 0, cs => cs
  | _ + 1, [] => []
  | fuel + 1, c :: cs =>
    match matchAt (c :: cs) with
    | some (m, rest) => repl m ++ replaceScan matchAt repl fuel rest
    | none => c :: replaceScan matchAt repl fuel cs


/-- Wrapper running a global replace over a `String`. -/
def globalReplace (matchAt : List Char → Option (List Char × List Char))
    (repl : List Char → List Char) (s : String) : String :=
  String.mk (replaceScan matchAt repl (s.data.length + 1) s.data)


/-- Modelled from the spec: `transCardArray` (from `./templater/bind`, a
repository file outside the compiler-core sources).  The specification
describes the `this.`-rewrite as producing the matched expression wrapped
in a double-curly binding with the `this.` prefix removed, and the prefix
removal is performed by the explicit replace in `parseCard` itself, so this
transform is modelled as the identity on the matched expression. -/
def transCardArray (s : String) : String := s


/-- Modelled from the spec: `ResourceReferenceParsing`
(`./resource-reference-script`, a repository file outside the compiler-core
sources).  The specification's card-literal algorithm lists only the
comment-stripping, export-default removal and event/binding rewrites, so
this stage is modelled as the identity. -/
def resourceReferenceParsing (s : String) : String := s


/-- Replacement callback of the `REG_EVENT_STRING` replace:
`item.slice(1, -1)` strips the surrounding quotes. -/
def eventStringRepl (m : List Char) : List Char := (m.drop 1).dropLast


/-- Replacement callback of the `REG_EVENT` replace: wrap the matched event
expression in double quotes. -/
def eventRepl (m : List Char) : List Char := '"' :: (m ++ ['"'])


/-- Replacement callback of the `REG_THIS` replace (the conditional
rewrite of `parseCard`): if the match does not end in a quote or a
quote-comma pair, wrap it in a double-curly binding (preserving a trailing
comma) and delete every `this.` occurrence. -/
def thisReplStr (item : String) : String :=
  let l1 := item.takeRight 1
  let l2 := item.takeRight 2
  if l1 ≠ "\"" ∧ l1 ≠ "'" ∧ l2 ≠ "\"," ∧ l2 ≠ "'," then
    if l1 = "," then
      strReplaceAll ("\"\x7b\x7b" ++ transCardArray (item.dropRight 1) ++ "\x7d\x7d\",") "this." ""
    else
      strReplaceAll ("\"\x7b\x7b" ++ transCardArray item ++ "\x7d\x7d\"") "this." ""
  else item


/-- The `REG_EVENT_STRING` global replace of `parseCard`. -/
def regEventStringReplace (s : String) : String :=
  globalReplace matchEventString eventStringRepl s


/-- The `REG_EVENT` global replace of `parseCard`. -/
def regEventReplace (s : String) : String :=
  globalReplace matchEvent eventRepl s


/-- The `REG_THIS` global replace of `parseCard`. -/
def regThisReplace (s : String) : String :=
  globalReplace matchThis (fun m => (thisReplStr (String.mk m)).data) s


/-- The full expression-rewriting pass `parseCard` applies to `.json`/`.js`
card config text: resource-reference parsing, then the three regex
replaces in source order. -/
def rewriteCardExpr (s : String) : String :=
  regThisReplace (regEventReplace (regEventStringReplace (resourceReferenceParsing s)))


/-! ## Source position mapping: `splitSourceLine` and `consumeMap`
(utility module) -/

/-- Recursive worker for `splitSourceLine`: split on `\r\n` or `\n`
(a lone `\r` is not a separator, matching `/\r?\n/g`). -/
def splitLinesGo : List Char → List Char → List String
  | [], acc => [String.mk acc.reverse]
  | '\r' :: '\n' :: rest, acc => String.mk acc.reverse :: splitLinesGo rest []
  | '\n' :: rest, acc => String.mk acc.reverse :: splitLinesGo rest []
  | c :: rest, acc => splitLinesGo rest (c :: acc)


/-- Faithful model of `splitSourceLine`: `source.split(/\r?\n/g)`. -/
def splitSourceLine (source : String) : List String :=
  splitLinesGo source.data []


/-- Result of `SourceMapConsumer.originalPositionFor` at some generated
position: the original source identifier (`none` models a null source) and
the original line/column. -/
structure SmcPos where
  source : Option String
  line : Nat
  column : Nat
deriving DecidableEq, Repr


/-- Truthiness of `pos.source` in JavaScript (`null`/`undefined` and the
empty string are falsy). -/
def srcTruthy : Option String → Bool
  | none => false
  | some s => s ≠ ""


/-- The record built by `consumeMap`. -/
structure ConsumeOut where
  source : Option String
  original : List (Nat × Nat)
  generated : List (Nat × Nat)
  mapping : List (String × (Nat × Nat))
deriving DecidableEq, Repr


/-- The key under which a generated line is recorded in the position map
(the generated column is always 0). -/
def mapKey (line : Nat) : String :=
  "line-" ++ toString line ++ "-column-0"


/-- The `forEach` of `consumeMap` over the generated lines, with `idx` the
0-based index of the next line (the queried generated line is `idx + 1`). -/
def consumeMapGo (smc : Nat → SmcPos) : List String → Nat → ConsumeOut → ConsumeOut
  | [], _, acc => acc
  | _ :: rest, idx, acc =>
    let line := idx + 1
    let pos := smc line
    let acc :=
      if srcTruthy pos.source then
        { source := pos.source,
          original := acc.original ++ [(pos.line, pos.column)],
          generated := acc.generated ++ [(line, 0)],
          mapping := acc.mapping ++ [(mapKey line, (pos.line, pos.column))] }
      else acc
    consumeMapGo smc rest (idx + 1) acc


/-- Faithful model of `consumeMap`: query the consumed source map at
column 0 of every 1-indexed generated line of `target`; lines whose
original position has a truthy source are recorded, all others are left
out.  The consumer itself is an external collaborator and is passed as the
function `smc`. -/
def consumeMap (smc : Nat → SmcPos) (target : String) : ConsumeOut :=
  consumeMapGo smc (splitSourceLine target) 0 ⟨none, [], [], []⟩


/-- The 1-indexed generated line numbers `s, s+1, …, s+n-1`. -/
def lineRange (s n : Nat) : List Nat :=
  match n with
  | 0 => []
  | n + 1 => s :: lineRange (s + 1) n


/-! ## Node `path` helpers (posix form, as the build uses them) -/

/-- Split a path on `/`. -/
def splitSlashGo : List Char → List Char → List String
  | [], acc => [String.mk acc.reverse]
  | '/' :: rest, acc => String.mk acc.reverse :: splitSlashGo rest []
  | c :: rest, acc => splitSlashGo rest (c :: acc)


/-- Normalize path segments: drop empty and `.` segments, resolve `..`
against the preceding segment (kept when there is nothing to pop). -/
def normalizeSegs : List String → List String → List String
  | [], acc => acc.reverse
  | "" :: rest, acc => normalizeSegs rest acc
  | "." :: rest, acc => normalizeSegs rest acc
  | ".." :: rest, acc =>
    match acc with
    | [] => normalizeSegs rest [".."]
    | ".." :: _ => normalizeSegs rest (".." :: acc)
    | _ :: accRest => normalizeSegs rest accRest
  | seg :: rest, acc => normalizeSegs rest (seg :: acc)


/-- Normalize a posix path (collapse `//`, resolve `.` and `..`). -/
def normalizePathStr (s : String) : String :=
  let isAbs := strStartsWith s "/"
  let joined := String.intercalate "/" (normalizeSegs (splitSlashGo s.data []) [])
  if isAbs then "/" ++ joined else if joined = "" then "." else joined


/-- Node `path.join(a, b)` on posix paths without trailing slashes. -/
def pathJoin (a b : String) : String :=
  normalizePathStr (a ++ "/" ++ b)


/-- Node `path.resolve(base, p)` under the assumption that `base` is
absolute (as the build's project/output paths are). -/
def pathResolve (base p : String) : String :=
  if strStartsWith p "/" then normalizePathStr p else normalizePathStr (base ++ "/" ++ p)


/-- Node `path.basename` (posix, no trailing slash). -/
def pathBasename (p : String) : String :=
  String.mk (p.data.reverse.takeWhile (· ≠ '/')).reverse


/-- Node `path.extname`: from the last `.` of the basename, empty when the
basename has no dot or only a leading dot (agrees with Node on ordinary
file names). -/
def pathExtname (p : String) : String :=
  let b := (pathBasename p).data
  let afterDot := (b.reverse.takeWhile (· ≠ '.')).reverse
  if afterDot.length = b.length then ""
  else if afterDot.length = b.length - 1 ∧ b.head? = some '.' then ""
  else String.mk ('.' :: afterDot)


/-- Node `path.dirname` (posix, no trailing slash). -/
def pathDirname (p : String) : String :=
  match p.data.reverse.dropWhile (· ≠ '/') with
  | [] => "."
  | _ :: rest => if rest = [] then "/" else String.mk rest.reverse


/-- Node `path.parse(p).name`: basename without its extension. -/
def pathParseName (p : String) : String :=
  let b := (pathBasename p).data
  let e := (pathExtname p).data
  String.mk (b.take (b.length - e.length))


/-- Model of `getNameByPath` from the utility module:
`path.basename(p).replace(/\..*$/, '')` — everything from the first dot of
the basename (single-line names, as file names are). -/
def getNameByPath (resourcePath : String) : String :=
  String.mk ((pathBasename resourcePath).data.takeWhile (· ≠ '.'))


/-- JavaScript `String.prototype.trim` (ASCII whitespace subset). -/
def jsTrim (s : String) : String :=
  String.mk (((s.data.dropWhile isJsSpace).reverse.dropWhile isJsSpace).reverse)

/-- Lowercasing as `String.prototype.toLowerCase` (ASCII names, as the
element and method names are). -/
def strToLower (s : String) : String :=
  String.mk (s.data.map Char.toLower)


/-! ## JavaScript values (for the card-literal structured data) -/

/-- A JavaScript value as the card-literal normalizer sees it. -/
inductive JVal where
  | jundefined : JVal
  | jnull : JVal
  | jbool : Bool → JVal
  | jnum : Int → JVal
  | jstr : String → JVal
  | jarr : List JVal → JVal
  | jobj : List (String × JVal) → JVal
deriving Repr, Inhabited, BEq


/-- JavaScript falsiness (`NaN` not modelled). -/
def isFalsy : JVal → Bool
  | .jundefined => true
  | .jnull => true
  | .jbool b => !b
  | .jnum n => n = 0
  | .jstr s => s = ""
  | .jarr _ => false
  | .jobj _ => false


/-- JavaScript `typeof`. -/
def jsTypeof : JVal → String
  | .jundefined => "undefined"
  | .jnull => "object"
  | .jbool _ => "boolean"
  | .jnum _ => "number"
  | .jstr _ => "string"
  | .jarr _ => "object"
  | .jobj _ => "object"


/-- Test `Object.prototype.toString.call(v) === '[object Object]'`. -/
def isPlainObject : JVal → Bool
  | .jobj _ => true
  | _ => false


mutual

/-- JavaScript string coercion `String(v)`, as used for object keys and
template-literal interpolation (arrays join their elements with commas,
`null`/`undefined` elements rendering empty; objects render as
`[object Object]`). -/
def jsDisplay : JVal → String
  | .jundefined => "undefined"
  | .jnull => "null"
  | .jbool b => cond b "true" "false"
  | .jnum n => toString n
  | .jstr s => s
  | .jarr xs => String.intercalate "," (jsDisplayArr xs)
  | .jobj _ => "[object Object]"

/-- Array-element renderings for `jsDisplay`. -/
def jsDisplayArr : List JVal → List String
  | [] => []
  | .jnull :: xs => "" :: jsDisplayArr xs
  | .jundefined :: xs => "" :: jsDisplayArr xs
  | x :: xs => jsDisplay x :: jsDisplayArr xs

end

/-- Property read `v[k]` — throws a `TypeError` on `null`/`undefined`,
yields `undefined` for absent keys and for primitives. -/
def jsMember (v : JVal) (k : String) : Except String JVal :=
  match v with
  | .jnull => .error ("TypeError: Cannot read properties of null (reading '" ++ k ++ "')")
  | .jundefined => .error ("TypeError: Cannot read properties of undefined (reading '" ++ k ++ "')")
  | .jobj fs =>
    match fs.find? (fun kv => kv.1 = k) with
    | some kv => .ok kv.2
    | none => .ok .jundefined
  | _ => .ok .jundefined


/-- Property test `v.hasOwnProperty(k)` — throws on `null`/`undefined`, false for
primitives and arrays. -/
def jsHasOwn (v : JVal) (k : String) : Except String Bool :=
  match v with
  | .jnull => .error "TypeError: Cannot read properties of null (reading 'hasOwnProperty')"
  | .jundefined => .error "TypeError: Cannot read properties of undefined (reading 'hasOwnProperty')"
  | .jobj fs => .ok (fs.any (fun kv => kv.1 = k))
  | _ => .ok false


/-- Property write `v[k] = x` on an object (insertion position preserved
for existing keys, appended otherwise). -/
def objSet (v : JVal) (k : String) (x : JVal) : JVal :=
  match v with
  | .jobj fs =>
    .jobj (if (fs.find? (fun kv => kv.1 = k)).isSome
      then fs.map (fun kv => if kv.1 = k then (kv.1, x) else kv)
      else fs ++ [(k, x)])
  | _ => v


/-- Key/value insertion into the assembled `propsObject` of
`replacePropsArray` (same JavaScript object-write semantics). -/
def objSetList (fs : List (String × JVal)) (k : String) (x : JVal) : List (String × JVal) :=
  if (fs.find? (fun kv => kv.1 = k)).isSome
  then fs.map (fun kv => if kv.1 = k then (kv.1, x) else kv)
  else fs ++ [(k, x)]


/-! ## Card-literal validators (src/src/json.js) -/

/-- One step of the array branch of `replacePropsArray`: warn when the
element is not a string, then write `{default: ''}` under the element's
key coercion into the assembled object. -/
def replacePropsArrStep (acc : List LogEntry × List (String × JVal)) (it : JVal) :
    List LogEntry × List (String × JVal) :=
  let lg := if jsTypeof it ≠ "string" then
    [⟨"WARNING: The props value type should be 'string', not '" ++ jsTypeof it ++
      "' in props array in custom elements.", 0, 0⟩] else []
  (acc.1 ++ lg, objSetList acc.2 (jsDisplay it) (JVal.jobj [("default", .jstr "")]))


/-- One step of the object branch of `replacePropsArray`: warn when the
entry value is not an object, then keep the entry if it already owns a
`default` key and replace it with `{default: ''}` otherwise; a
`null`/`undefined` value makes `hasOwnProperty` throw. -/
def replacePropsObjStep (acc : List LogEntry × Except String (List (String × JVal)))
    (kv : String × JVal) : List LogEntry × Except String (List (String × JVal)) :=
  match acc.2 with
  | .error _ => acc
  | .ok done =>
    let lg := if ¬ isPlainObject kv.2 then
      [⟨"WARNING: The props default value type can only be Object in custom elements.", 0, 0⟩]
      else []
    match jsHasOwn kv.2 "default" with
    | .error e => (acc.1 ++ lg, .error e)
    | .ok hd =>
      (acc.1 ++ lg, .ok (done ++
        [if hd then kv else (kv.1, JVal.jobj [("default", .jstr "")])]))


/-- Faithful model of `replacePropsArray`: falsy props pass through; an
array is rebuilt as an object of `{default: ''}` records (warning per
non-string element); an object keeps entries that already own a `default`
key and replaces the others with `{default: ''}` (warning per non-object
value); anything else warns and passes through.  The `Except` result
carries the `TypeError` thrown when a `null`/`undefined` entry value
reaches `hasOwnProperty`; warnings already emitted are returned alongside. -/
def replacePropsArray (propsValue : JVal) : List LogEntry × Except String JVal :=
  if isFalsy propsValue then ([], .ok propsValue)
  else match propsValue with
  | .jarr items =>
    let r := items.foldl replacePropsArrStep ([], [])
    (r.1, .ok (.jobj r.2))
  | .jobj fs =>
    let r := fs.foldl replacePropsObjStep ([], .ok [])
    (r.1, r.2.map JVal.jobj)
  | _ =>
    ([⟨"WARNING: The props type can only be Array or Object in custom elements.", 0, 0⟩],
      .ok propsValue)


/-- One field of `processActions`: read `.method`, warn and lowercase a
mixed-case string method, warn on a non-string truthy method. -/
def processActionsField (kv : String × JVal) : List LogEntry × Except String (String × JVal) :=
  match jsMember kv.2 "method" with
  | .error e => ([], .error e)
  | .ok m =>
    if ¬ isFalsy m then
      match m with
      | .jstr s =>
        if strToLower s ≠ s then
          ([⟨"WARNING: The key method '" ++ s ++
            "' in the actions don't support uppercase letters.", 0, 0⟩],
           .ok (kv.1, objSet kv.2 "method" (.jstr (strToLower s))))
        else ([], .ok kv)
      | _ =>
        ([⟨"WARNING: The key method type in the actions should be 'string', not '" ++
          jsTypeof m ++ "'.", 0, 0⟩], .ok kv)
    else ([], .ok kv)


/-- Faithful model of `processActions`: for an object, process every entry
in order (short-circuiting on a thrown `TypeError`); a truthy non-object
warns; anything falsy passes through. -/
def processActions (v : JVal) : List LogEntry × Except String JVal :=
  match v with
  | .jobj fs =>
    let r := fs.foldl (fun (acc : List LogEntry × Except String (List (String × JVal))) kv =>
      match acc.2 with
      | .error _ => acc
      | .ok done =>
        let (lg, res) := processActionsField kv
        match res with
        | .error e => (acc.1 ++ lg, .error e)
        | .ok kv' => (acc.1 ++ lg, .ok (done ++ [kv'])))
      ([], .ok [])
    (r.1, r.2.map JVal.jobj)
  | _ =>
    if ¬ isFalsy v then
      ([⟨"WARNING: The actions value type can only be Object.", 0, 0⟩], .ok v)
    else ([], .ok v)


/-- Faithful model of `validateData`: warn when a truthy non-object is
supplied; always pass the value through. -/
def validateData (v : JVal) : List LogEntry × JVal :=
  if ¬ isFalsy v ∧ ¬ isPlainObject v then
    ([⟨"WARNING: The data value type can only be Object.", 0, 0⟩], v)
  else ([], v)


/-- A props-object entry already in normalized form: an object owning a
`default` key. -/
def isNormalizedProp : JVal → Bool
  | .jobj vfs => vfs.any (fun kv => kv.1 = "default")
  | _ => false


/-! ## Card config loader entry (src/src/json.js) -/

/-- Drop characters through the first `*/`, or fail when there is none
(the lazy block-comment body of `/\/\*((\n|\r|.)*?)\*\//mg`). -/
def dropToStarSlash : List Char → Option (List Char)
  | [] => none
  | '*' :: '/' :: rest => some rest
  | _ :: rest => dropToStarSlash rest


/-- Remove every (closed) block comment, leftmost first. -/
def stripBlockGo : Nat → List Char → List Char
  | 0, cs => cs
  | _ + 1, [] => []
  | fuel + 1, '/' :: '*' :: rest =>
    (match dropToStarSlash rest with
     | some rest' => stripBlockGo fuel rest'
     | none => '/' :: '*' :: rest)
  | fuel + 1, c :: cs => c :: stripBlockGo fuel cs


/-- The block-comment strip of `parseCard`. -/
def stripBlockComments (s : String) : String :=
  String.mk (stripBlockGo (s.data.length + 1) s.data)


/-- The characters accepted by the leading group of the line-comment
regex `/(\s|\;|^|\{|\})\/\/.*$/mg`. -/
def isLineCommentLead (c : Char) : Bool :=
  isJsSpace c ∨ c = ';' ∨ c = '\x7b' ∨ c = '\x7d'


/-- Drop up to (excluding) the next line terminator (`.*$` in multiline
mode stops before the newline). -/
def dropLineRest (cs : List Char) : List Char :=
  cs.dropWhile (fun ch => ! isLineTermChar ch)


/-- Remove line comments that follow whitespace, `;`, a brace, or start a
line, keeping the leading character (`$1` replacement).  `atStart` tracks
the multiline `^`. -/
def stripLineGo : Nat → Bool → List Char → List Char
  | 0, _, cs => cs
  | _ + 1, _, [] => []
  | fuel + 1, atStart, c :: cs =>
    if isLineCommentLead c ∧ cs.take 2 = ['/', '/'] then
      c :: stripLineGo fuel false (dropLineRest cs)
    else if atStart ∧ (c :: cs).take 2 = ['/', '/'] then
      stripLineGo fuel false (dropLineRest (c :: cs))
    else c :: stripLineGo fuel (isLineTermChar c) cs


/-- The line-comment strip of `parseCard`. -/
def stripLineComments (s : String) : String :=
  String.mk (stripLineGo (s.data.length + 1) true s.data)


/-- The text-processing prefix of `parseCard` up to the literal
evaluation: strip block and line comments, remove a leading
`export default` (first occurrence, as `String.replace` with a string
pattern does), and for `.json`/`.js` assets run the expression-rewriting
pass. -/
def cardProcessedText (resourcePath source : String) : String :=
  let s1 := stripBlockComments source
  let s2 := stripLineComments s1
  let s3 := if strStartsWith (jsTrim s2) "export default" then
    replaceFirst s2 "export default" "" else s2
  let ext := pathExtname resourcePath
  if ext = ".json" ∨ ext = ".js" then rewriteCardExpr s3 else s3


/-- The loader context the json loader reads: resource path and query,
the webpack entry map (`key ↦ first import path`), the configured output
path, the working directory `path.resolve` resolves against, and
`process.env.DEVICE_LEVEL`. -/
structure JsonCtx where
  resourcePath : String
  resourceQuery : String
  entries : List (String × String)
  outputPath : String
  cwd : String
  deviceLevel : String


/-- Faithful model of `mkJsonFiles`: fold over the entry map — an entry
whose import's directory equals the resource's directory sets only the
index name, any other entry also sets `element` to the resource query
before the first `#` with its leading `?` removed (last iteration wins,
and `element` survives a later matching iteration unchanged). -/
def mkJsonFiles (ctx : JsonCtx) : String × Option String :=
  let rq0 := String.mk (ctx.resourceQuery.data.takeWhile (· ≠ '#'))
  let r := ctx.entries.foldl (fun (acc : String × Option String) kv =>
    if pathDirname (pathResolve ctx.cwd kv.2) = pathDirname ctx.resourcePath then
      (kv.1 ++ ".json", acc.2)
    else
      (kv.1 ++ ".json", some (String.mk (rq0.data.drop 1))))
    ("", none)
  (pathResolve ctx.outputPath r.1, r.2)


/-- One `cardJsonPlugin.compileJson` invocation (the aggregation-sink
collaborator), recorded by argument position after the compiler handle. -/
structure CompileJsonCall where
  a2 : String
  a3 : String
  a4 : Option JVal := none
  a5 : Option String := none
  a6 : Option String := none
deriving Repr


/-- The observable outcome of `parseCard`: the exception it propagates (if
any), the strict serialized text it returns, the aggregation-sink calls it
performed, and the warnings it logged — effects performed before a throw
are kept. -/
structure ParseCardOut where
  thrown : Option String := none
  source : String := ""
  calls : List CompileJsonCall := []
  logs : List LogEntry := []
deriving Repr


/-- Faithful model of `parseCard`.  The dynamic literal evaluation with
strict re-serialization (`JSON.stringify(eval('(' + source + ')'))`,
together with the `JSON.parse` reads of the resulting strict text) is a
host-environment facility, passed in as the oracle `evalStringify`
returning the serialized text and its structured value, or the thrown
syntax error.  Member reads and validators thread the `TypeError`s the
JavaScript code can raise while evaluating `compileJson` arguments. -/
def parseCard (ctx : JsonCtx) (evalStringify : String → Except String (String × JVal))
    (source : String) : ParseCardOut :=
  match evalStringify (cardProcessedText ctx.resourcePath source) with
  | .error e => { thrown := some e }
  | .ok (txt, jv) =>
    let ext := pathExtname ctx.resourcePath
    let ij := mkJsonFiles ctx
    let initCall : CompileJsonCall := { a2 := "init", a3 := ij.1 }
    match ij.2 with
    | some el =>
      if ext = ".json" ∨ ext = ".js" then
        match jsMember jv "actions" with
        | .error e => { thrown := some e, calls := [initCall] }
        | .ok actionsV =>
          let ra := processActions actionsV
          match ra.2 with
          | .error e => { thrown := some e, calls := [initCall], logs := ra.1 }
          | .ok actionsV' =>
            let callA : CompileJsonCall :=
              { a2 := el, a3 := ij.1, a4 := some actionsV', a5 := some el, a6 := some "actions" }
            match jsMember jv "data" with
            | .error e => { thrown := some e, calls := [initCall, callA], logs := ra.1 }
            | .ok dataV =>
              let rd := validateData dataV
              let callD : CompileJsonCall :=
                { a2 := el, a3 := ij.1, a4 := some rd.2, a5 := some el, a6 := some "data" }
              match jsMember jv "apiVersion" with
              | .error e =>
                { thrown := some e, calls := [initCall, callA, callD], logs := ra.1 ++ rd.1 }
              | .ok apiV =>
                let rv := validateData apiV
                let callV : CompileJsonCall :=
                  { a2 := el, a3 := ij.1, a4 := some rv.2, a5 := some el, a6 := some "apiVersion" }
                match jsMember jv "props" with
                | .error e =>
                  { thrown := some e, calls := [initCall, callA, callD, callV],
                    logs := ra.1 ++ rd.1 ++ rv.1 }
                | .ok propsV =>
                  let rp := replacePropsArray propsV
                  match rp.2 with
                  | .error e =>
                    { thrown := some e, calls := [initCall, callA, callD, callV],
                      logs := ra.1 ++ rd.1 ++ rv.1 ++ rp.1 }
                  | .ok propsV' =>
                    let callP : CompileJsonCall :=
                      { a2 := el, a3 := ij.1, a4 := some propsV', a5 := some el, a6 := some "props" }
                    { source := txt, calls := [initCall, callA, callD, callV, callP],
                      logs := ra.1 ++ rd.1 ++ rv.1 ++ rp.1 }
      else if ext = ".css" ∨ ext = ".less" ∨ ext = ".sass" ∨ ext = ".scss" then
        { source := txt,
          calls := [initCall,
            { a2 := el, a3 := ij.1, a4 := some jv, a5 := some el, a6 := some "styles" }] }
      else if ext = ".hml" then
        { source := txt,
          calls := [initCall,
            { a2 := el, a3 := ij.1, a4 := some jv, a5 := some el, a6 := some "template" }] }
      else { source := txt, calls := [initCall] }
    | none =>
      if ext = ".json" ∨ ext = ".js" then
        match jsMember jv "actions" with
        | .error e => { thrown := some e, calls := [initCall] }
        | .ok actionsV =>
          let ra := processActions actionsV
          match ra.2 with
          | .error e => { thrown := some e, calls := [initCall], logs := ra.1 }
          | .ok actionsV' =>
            let callA : CompileJsonCall :=
              { a2 := "actions", a3 := ij.1, a4 := some actionsV', a5 := some "actions" }
            match jsMember jv "data" with
            | .error e => { thrown := some e, calls := [initCall, callA], logs := ra.1 }
            | .ok dataV =>
              let rd := validateData dataV
              let callD : CompileJsonCall :=
                { a2 := "data", a3 := ij.1, a4 := some rd.2, a5 := some "data" }
              match jsMember jv "apiVersion" with
              | .error e =>
                { thrown := some e, calls := [initCall, callA, callD], logs := ra.1 ++ rd.1 }
              | .ok apiV =>
                let rv := validateData apiV
                let callV : CompileJsonCall :=
                  { a2 := "apiVersion", a3 := ij.1, a4 := some rv.2, a5 := some "apiVersion" }
                { source := txt, calls := [initCall, callA, callD, callV],
                  logs := ra.1 ++ rd.1 ++ rv.1 }
      else if ext = ".css" ∨ ext = ".less" ∨ ext = ".sass" ∨ ext = ".scss" then
        { source := txt,
          calls := [initCall,
            { a2 := "styles", a3 := ij.1, a4 := some jv, a5 := some "styles" }] }
      else if ext = ".hml" then
        { source := txt,
          calls := [initCall,
            { a2 := "template", a3 := ij.1, a4 := some jv, a5 := some "template" }] }
      else { source := txt, calls := [initCall] }


/-- What the json loader's exported function produces: the generated
module text, the diagnostics logged, and the aggregation-sink calls. -/
structure JsonLoaderOut where
  output : String
  logs : List LogEntry
  calls : List CompileJsonCall
deriving Repr


/-- Faithful model of the json loader's exported function: in card mode
run `parseCard` under a try/catch — a caught exception logs an Error
diagnostic naming the resource and the function returns `'{}'`; on success
it also returns `'{}'`.  Outside card mode it returns
`module.exports = <source>`. -/
def jsonLoader (ctx : JsonCtx) (evalStringify : String → Except String (String × JVal))
    (source : String) : JsonLoaderOut :=
  if ctx.deviceLevel = "card" then
    match (parseCard ctx evalStringify source).thrown with
    | some e =>
      { output := "\x7b\x7d",
        logs := (parseCard ctx evalStringify source).logs ++
          [⟨"ERROR: Failed to parse the file : " ++ ctx.resourcePath ++ "\n" ++ e, 0, 0⟩],
        calls := (parseCard ctx evalStringify source).calls }
    | none =>
      { output := "\x7b\x7d",
        logs := (parseCard ctx evalStringify source).logs,
        calls := (parseCard ctx evalStringify source).calls }
  else { output := "module.exports = " ++ source, logs := [], calls := [] }


/-! ## Orchestrator (src/src/loader.js) -/


/-- The resolved default-loader paths and related constants the loader
module computes once at initialization (from `__dirname`,
`require.resolve` and `loadBabelModule`); supplied as context. -/
structure DefaultLoaders where
  main : String
  template : String
  style : String
  script : String
  json : String
  babel : String
  manifest : String
  resourceReferenceScript : String
  babelConfig : String
deriving Repr


/-- Modelled from the spec: the `DEVICE_LEVEL` enumeration of
`./lite/lite-enum` (a repository file outside the compiler-core sources):
the Rich, Lite and Card build-target modes, the card value matching the
literal `'card'` the json loader compares against. -/
def dlRICH : String := "rich"


/-- Modelled from the spec: the Lite member of the `DEVICE_LEVEL`
enumeration (see `dlRICH`). -/
def dlLITE : String := "lite"


/-- The environment and webpack context one loader invocation reads:
resource path, `process.env` values, filesystem existence, the
compilation's entry keys, the resolved default loaders, and the custom
language map with its loaders already resolved through `loadBabelModule`
(whose `require.resolve` is a host facility). -/
structure LoaderCtx where
  resourcePath : String
  projectPath : String
  abilityType : String
  deviceLevel : String
  aceManifestPath : String
  fs : String → Bool
  entries : List String
  dl : DefaultLoaders
  customLang : List (String × String)


/-- The `config` argument of `getLoaderString`: declared language, source
path, app-script flag, and the element flag threaded to the template
config (the template loader-string builder ignores it, as the source
does). -/
structure LoaderConfig where
  lang : Option String := none
  source : Option String := none
  app : Bool := false
  element : Bool := false


/-- Faithful model of `loadCustomLoader`: a truthy `lang` configured in
the custom-language map resolves to its (already `loadBabelModule`
resolved) loader string. -/
def loadCustomLoader (ctx : LoaderCtx) (config : LoaderConfig) : Option String :=
  match config.lang with
  | some l => if l ≠ "" then (ctx.customLang.find? (fun kv => kv.1 = l)).map (·.2) else none
  | none => none


/-- Faithful model of `mainLoaderString`. -/
def mainLoaderString (ctx : LoaderCtx) : String :=
  stringifyLoaders [.obj ctx.dl.main none]


/-- Faithful model of `elementLoaderString`: the main loader with an
`element` query flag that is `undefined` when a source is supplied and
`true` otherwise. -/
def elementLoaderString (ctx : LoaderCtx) (config : LoaderConfig) : String :=
  stringifyLoaders [.obj ctx.dl.main (some [("element",
    match config.source with
    | some s => if s ≠ "" then QVal.qnull else QVal.qtrue
    | none => QVal.qtrue)])]


/-- Faithful model of `templateLoaderString`: json then template, plus the
custom loader when there is one. -/
def templateLoaderString (ctx : LoaderCtx) (customLoader : Option String) : String :=
  stringifyLoaders ([.obj ctx.dl.json none, .obj ctx.dl.template none] ++
    (match customLoader with | some c => [.str c] | none => []))


/-- Faithful model of `styleLoaderString`: json then style, plus the
custom loader when there is one. -/
def styleLoaderString (ctx : LoaderCtx) (customLoader : Option String) : String :=
  stringifyLoaders ([.obj ctx.dl.json none, .obj ctx.dl.style none] ++
    (match customLoader with | some c => [.str c] | none => []))


/-- Faithful model of the stage list built by `scriptLoaderString`: the
script stage; then either the custom loader alone, or the babel stage
(with the `extends` config and, in Rich mode, `targets: 'node 8'`)
followed by the resource-reference-rewriting stage; and, only for an app
script compiled for the `page` ability type with the manifest present on
disk, a final manifest stage parameterized with the source path. -/
def scriptLoaderLoaders (ctx : LoaderCtx) (config : LoaderConfig)
    (customLoader : Option String) : List LoaderSpec :=
  let loaders : List LoaderSpec := [.obj ctx.dl.script none]
  let loaders := match customLoader with
    | some c => loaders ++ [.str c]
    | none =>
      let isTargets : List (String × QVal) := [("extends", .qval ctx.dl.babelConfig)]
      let isTargets := if ctx.deviceLevel = dlRICH then
        isTargets ++ [("targets", .qval "node 8")] else isTargets
      loaders ++ [.obj ctx.dl.babel (some isTargets), .obj ctx.dl.resourceReferenceScript none]
  if config.app = true ∧ ctx.abilityType = "page" ∧ ctx.fs ctx.aceManifestPath = true then
    loaders ++ [.obj ctx.dl.manifest (some [("path",
      match config.source with | some s => QVal.qval s | none => QVal.qnull)])]
  else loaders


/-- Faithful model of `scriptLoaderString`. -/
def scriptLoaderString (ctx : LoaderCtx) (config : LoaderConfig)
    (customLoader : Option String) : String :=
  stringifyLoaders (scriptLoaderLoaders ctx config customLoader)


/-- Faithful model of `configLoaderString`. -/
def configLoaderString (ctx : LoaderCtx) : String :=
  stringifyLoaders [.obj ctx.dl.json none]


/-- Faithful model of `dataLoaderString`. -/
def dataLoaderString (ctx : LoaderCtx) : String :=
  stringifyLoaders [.obj ctx.dl.json none]


/-- The asset kinds `getLoaderString` dispatches on. -/
inductive LoaderType where
  | main | element | template | style | script | config | data


/-- Faithful model of `getLoaderString`. -/
def getLoaderString (ctx : LoaderCtx) (type : LoaderType) (config : LoaderConfig) : String :=
  let customLoader := loadCustomLoader ctx config
  match type with
  | .main => mainLoaderString ctx
  | .element => elementLoaderString ctx config
  | .template => templateLoaderString ctx customLoader
  | .style => styleLoaderString ctx customLoader
  | .script => scriptLoaderString ctx config customLoader
  | .config => configLoaderString ctx
  | .data => dataLoaderString ctx


/-- Modelled from the spec: webpack's `loaderUtils.stringifyRequest` (the
module-reference resolver collaborator) renders a request as a quoted
module string. -/
def stringifyRequest (r : String) : String := "\"" ++ r ++ "\""


/-- Faithful model of `getRequireString` from the utility module. -/
def getRequireString (loaderStr filepath : String) : String :=
  "require(" ++ stringifyRequest
    (if loaderStr ≠ "" then "!!" ++ loaderStr ++ "!" ++ filepath else filepath) ++ ")\n"


/-! ### The process-wide `elements` map (component reference graph) -/

/-- A value stored in a component record of the process-wide `elements`
map: the boolean `true` marking a reserved name, or a string.  The
flattening assignment of the loader can also store a record object or
`undefined`; every later use observes those only through truthiness, map-key
coercion or template interpolation, so they are stored as their string
coercions (`"[object Object]"`, and the falsy empty string for
`undefined`). -/
inductive EVal where
  | etrue : EVal
  | estr : String → EVal
deriving DecidableEq, Repr


/-- A component's record: its reserved names and its `parent` key. -/
abbrev ERec := List (String × EVal)


/-- The `elements` map, component path to record. -/
abbrev ElementsMap := List (String × ERec)


/-- Record lookup. -/
def recGet (r : ERec) (k : String) : Option EVal :=
  (r.find? (fun kv => kv.1 = k)).map (·.2)


/-- Record write (JavaScript object semantics: existing keys keep their
position, new keys append). -/
def recSet (r : ERec) (k : String) (v : EVal) : ERec :=
  if (r.find? (fun kv => kv.1 = k)).isSome
  then r.map (fun kv => if kv.1 = k then (k, v) else kv)
  else r ++ [(k, v)]


/-- Lookup in the `elements` map. -/
def elsGet (els : ElementsMap) (k : String) : Option ERec :=
  (els.find? (fun kv => kv.1 = k)).map (·.2)


/-- Write into the `elements` map. -/
def elsSet (els : ElementsMap) (k : String) (r : ERec) : ElementsMap :=
  if (els.find? (fun kv => kv.1 = k)).isSome
  then els.map (fun kv => if kv.1 = k then (k, r) else kv)
  else els ++ [(k, r)]


/-- JavaScript truthiness of a looked-up record value (`undefined` and the
empty string are falsy). -/
def evTruthy : Option EVal → Bool
  | none => false
  | some .etrue => true
  | some (.estr s) => s ≠ ""


/-- JavaScript key coercion of a record value (`true` coerces to
`"true"`). -/
def evKeyStr : EVal → String
  | .etrue => "true"
  | .estr s => s


/-- The outcome of the loader's registration prologue. -/
structure RegisterOut where
  els : ElementsMap
  name : String
  parentPath : String
deriving Repr


/-- Faithful model of the registration prologue of `loader` (name and
parent-path resolution and the `elements` updates): an entry records its
own name under its path; a child records its immediate parent under
`parent` and, when that parent's record holds a truthy `parent` of its
own, reassigns its parent to `elements[elements[parentPath]["parent"]]` —
a record object, or `undefined` when that key is absent — and rebinds the
local `parentPath` to that value (observed through its string
coercion). -/
def loaderRegister (els : ElementsMap) (resourcePath : String) (qEntry : Bool)
    (qName : Option String) (qParentPath : Option String) : RegisterOut :=
  let name := if qEntry then pathParseName resourcePath
    else match qName with
      | some n => if n ≠ "" then n else getNameByPath resourcePath
      | none => getNameByPath resourcePath
  let parentPath := match qParentPath with
    | some p => if p ≠ "" then p else resourcePath
    | none => resourcePath
  if qEntry then
    let r := (elsGet els resourcePath).getD []
    { els := elsSet els resourcePath (recSet r name .etrue), name, parentPath }
  else
    let r := (elsGet els resourcePath).getD []
    let els := elsSet els resourcePath (recSet r "parent" (.estr parentPath))
    match elsGet els parentPath with
    | some pr =>
      if evTruthy (recGet pr "parent") then
        let gpKey := evKeyStr ((recGet pr "parent").getD (.estr ""))
        match elsGet els gpKey with
        | some _ =>
          let r' := (elsGet els resourcePath).getD []
          { els := elsSet els resourcePath (recSet r' "parent" (.estr "[object Object]")),
            name, parentPath := "[object Object]" }
        | none =>
          let r' := (elsGet els resourcePath).getD []
          { els := elsSet els resourcePath (recSet r' "parent" (.estr "")),
            name, parentPath := "undefined" }
      else { els := els, name, parentPath }
    | none => { els := els, name, parentPath }


/-! ### Page assembly -/

/-- Faithful model of `checkEntry`: warn for every compilation entry whose
`<key>.hml` under the project path coincides with the referenced file
(the project path is taken absolute, as `path.resolve` leaves it). -/
def checkEntry (ctx : LoaderCtx) (filePath elementSrc : String) : List LogEntry :=
  ctx.entries.filterMap fun key =>
    if pathJoin ctx.projectPath (key ++ ".hml") = filePath then
      some ⟨"WARNING: The page \"" ++ elementSrc ++ "\" configured in 'config.json'" ++
        " can not be uesd as a custom component." ++
        "To ensure that the debugging function is normal, please delete this page in 'config.json'.",
        0, 0⟩
    else none


/-- A custom-element reference discovered in a page's markup.
`parseFragment` (the markup parser, a repository module outside the
compiler core) is modelled from the spec as the supplied list of
discovered references, each with its declared source path and optional
name. -/
structure PageElement where
  src : Option String := none
  name : Option String := none


/-- Append `.hml` unless the declared source already ends with it
(`src.match(/\.hml$/)`; the `$` also matches before a final newline). -/
def withHmlExt (s : String) : String :=
  if strEndsWith s ".hml" ∨ strEndsWith s ".hml\n" then s else s ++ ".hml"


/-- Accumulated state of the element loop of
`loadPageCheckElementLength`. -/
structure ElemLoopOut where
  output : String
  els : ElementsMap
  logs : List LogEntry
deriving Repr


/-- The element loop of `loadPageCheckElementLength`.  A reference without
a truthy `src`, or whose relative/rooted source path does not exist,
aborts with `return ''` — discarding the output accumulated so far but
keeping the `elements` mutations and diagnostics already performed.
Otherwise the (lowercased, defaulted) name is checked against the
`elements` record keyed by `parentPath`: a collision logs an Error and
leaves the record unchanged, a fresh name is recorded; entry pages doubling
as components add a warning via `checkEntry`; and the element's require
string is appended. -/
def loadPageCheckElementLengthGo (ctx : LoaderCtx) (parentPath : String) :
    List PageElement → ElemLoopOut → ElemLoopOut
  | [], acc => acc
  | e :: rest, acc =>
    match e.src with
    | some s0 =>
      if s0 ≠ "" then
        let src := withHmlExt s0
        let filePath := pathJoin (pathDirname ctx.resourcePath) src
        if ctx.fs filePath = false ∧
            (strStartsWith src "/" = true ∨ strStartsWith src "." = true) then
          { output := "", els := acc.els,
            logs := acc.logs ++
              [⟨"ERROR: The file path of custom element does not exist, src: " ++ src, 0, 0⟩] }
        else
          let name := match e.name with
            | some n => if n ≠ "" then n else pathParseName src
            | none => pathParseName src
          let name := strToLower name
          let els := if (elsGet acc.els parentPath).isSome then acc.els
            else elsSet acc.els parentPath []
          let collision := evTruthy (recGet ((elsGet els parentPath).getD []) name)
          let els := if collision then els
            else elsSet els parentPath (recSet ((elsGet els parentPath).getD []) name .etrue)
          let logs := acc.logs ++ (if collision then
            [⟨"ERROR: The element name can not be same with the page \"" ++ name ++
              "\" (ignore case).", 0, 0⟩] else [])
          let logs := logs ++ checkEntry ctx filePath s0
          let req := getRequireString
            (getLoaderString ctx .element { source := some src })
            (src ++ "?name=" ++ name ++ "&parentPath=" ++ parentPath)
          loadPageCheckElementLengthGo ctx parentPath rest
            { output := acc.output ++ req, els := els, logs := logs }
      else
        { output := "", els := acc.els,
          logs := acc.logs ++ [⟨"ERROR: src attributes must be set for custom elements.", 0, 0⟩] }
    | none =>
      { output := "", els := acc.els,
        logs := acc.logs ++ [⟨"ERROR: src attributes must be set for custom elements.", 0, 0⟩] }


/-- Faithful model of `loadPageCheckElementLength` (an empty reference
list yields empty output, as the `if (elementLength)` guard does). -/
def loadPageCheckElementLength (ctx : LoaderCtx) (frag : List PageElement)
    (parentPath : String) (els : ElementsMap) : ElemLoopOut :=
  loadPageCheckElementLengthGo ctx parentPath frag { output := "", els := els, logs := [] }


/-- Result of the sibling-stylesheet discovery. -/
structure FindCssOut where
  extcss : Bool
  output : String
deriving Repr


/-- Faithful model of `loadPageFindCss`: probe `.css`, `.less`, `.scss`,
`.sass` in that order; the first hit emits the style require with the
matching language. -/
def loadPageFindCss (ctx : LoaderCtx) (filename : String) : FindCssOut :=
  if ctx.fs (filename ++ ".css") then
    ⟨true, "var $app_style$ = " ++ getRequireString
      (getLoaderString ctx .style { source := some (filename ++ ".css") })
      (filename ++ ".css")⟩
  else if ctx.fs (filename ++ ".less") then
    ⟨true, "var $app_style$ = " ++ getRequireString
      (getLoaderString ctx .style { lang := some "less", source := some (filename ++ ".less") })
      (filename ++ ".less")⟩
  else if ctx.fs (filename ++ ".scss") then
    ⟨true, "var $app_style$ = " ++ getRequireString
      (getLoaderString ctx .style { lang := some "scss", source := some (filename ++ ".scss") })
      (filename ++ ".scss")⟩
  else if ctx.fs (filename ++ ".sass") then
    ⟨true, "var $app_style$ = " ++ getRequireString
      (getLoaderString ctx .style { lang := some "sass", source := some (filename ++ ".sass") })
      (filename ++ ".sass")⟩
  else ⟨false, ""⟩


/-- Result of the sibling-script discovery: the flag, the require string,
and what went to the console. -/
structure FindJsOut where
  extscript : Bool
  output : String
  console : List String
deriving Repr


/-- Faithful model of `loadPageFindJs`: a missing sibling script yields no
require and only a console note (no diagnostic at all); an existing one
yields the script require. -/
def loadPageFindJs (ctx : LoaderCtx) (filename : String) : FindJsOut :=
  if ctx.fs (filename ++ ".js") = false then
    ⟨false, "", ["missing " ++ filename ++ ".js"]⟩
  else
    ⟨true, "var $app_script$ = " ++ getRequireString
      (getLoaderString ctx .script { source := some (filename ++ ".js") })
      (filename ++ ".js"), []⟩


/-- Faithful model of `loadPageCheckRich`: the Rich-mode component
definition block, with the optional script and style attachments and the
entry bootstrap call. -/
def loadPageCheckRich (name : String) (extscript extcss isEntry : Bool) : String :=
  "\n$app_define$('@app-component/" ++ name ++
    "', [], function($app_require$, $app_exports$, $app_module$) \x7b\n" ++
  (if extscript then
    "\n$app_script$($app_module$, $app_exports$, $app_require$)\nif ($app_exports$.__esModule && $app_exports$.default) \x7b\n$app_module$.exports = $app_exports$.default\n\x7d\n"
   else "") ++
  "\n$app_module$.exports.template = $app_template$\n" ++
  (if extcss then "\n$app_module$.exports.style = $app_style$\n" else "") ++
  "\n\x7d)\n" ++
  (if isEntry then "$app_bootstrap$('@app-component/" ++ name ++ "',undefined,undefined)" else "")


/-- Faithful model of `loadPageCheckLite`: the Lite-mode ViewModel options
block. -/
def loadPageCheckLite (extscript extcss : Bool) : String :=
  (if extscript then
    "var options=$app_script$\n if ($app_script$.__esModule) \x7b\n\n      options = $app_script$.default;\n \x7d\n"
   else "var options=\x7b\x7d\n") ++
  (if extcss then "options.styleSheet=$app_style$\n" else "") ++
  "options.render=$app_template$;\nmodule.exports=new ViewModel(options);"


/-- What one `loadPage` invocation produces: the generated text, the
updated `elements` map, the diagnostics, and the console notes. -/
structure PageOut where
  output : String
  els : ElementsMap
  logs : List LogEntry
  console : List String
deriving Repr


/-- Faithful model of `loadPage` for one unit: nothing for a non-markup
resource; for a markup resource, the element-reference block, the template
require, the discovered style and script requires, and the Rich or Lite
wrapper.  `frag` stands for `parseFragment(source)` and `isElement` for
the `element` loader-query flag. -/
def loadPage (ctx : LoaderCtx) (name : String) (isEntry isElement : Bool)
    (frag : List PageElement) (parentPath : String) (els : ElementsMap) : PageOut :=
  if strContains (pathExtname ctx.resourcePath) ".hml" then
    let filename := replaceFirst ctx.resourcePath (pathExtname ctx.resourcePath) ""
    let r1 := loadPageCheckElementLength ctx frag parentPath els
    let tmpl := "var $app_template$ = " ++ getRequireString
      (getLoaderString ctx .template { source := some ctx.resourcePath, element := isElement })
      ctx.resourcePath
    let css := loadPageFindCss ctx filename
    let js := loadPageFindJs ctx filename
    let wrapper := if ctx.deviceLevel = dlRICH then
      loadPageCheckRich name js.extscript css.extcss isEntry
      else loadPageCheckLite js.extscript css.extcss
    { output := r1.output ++ tmpl ++ css.output ++ js.output ++ wrapper,
      els := r1.els, logs := r1.logs, console := js.console }
  else { output := "", els := els, logs := [], console := [] }


/-- The babel-stage query of the default script pair: the `extends`
babel-config path, plus `targets: 'node 8'` exactly in Rich mode. -/
def babelQuery (ctx : LoaderCtx) : List (String × QVal) :=
  [("extends", .qval ctx.dl.babelConfig)] ++
    (if ctx.deviceLevel = dlRICH then [("targets", .qval "node 8")] else [])


/-- A concrete loader context over an empty filesystem, used to exercise
the missing-asset paths on concrete inputs. -/
def emptyFsCtx : LoaderCtx :=
  { resourcePath := "/proj/pages/index.hml", projectPath := "/proj",
    abilityType := "page", deviceLevel := "rich", aceManifestPath := "/proj/manifest.json",
    fs := fun _ => false, entries := [],
    dl := { main := "main.js", template := "template.js", style := "style.js",
            script := "script.js", json := "json.js", babel := "babel",
            manifest := "manifest-loader.js", resourceReferenceScript := "rrs.js",
            babelConfig := "/b/babel.config.js" },
    customLang := [] }


/-- A default-loaders record with concrete resolved paths, for the
flattening scenario. -/
def flatDl : DefaultLoaders :=
  { main := "main.js", template := "template.js", style := "style.js",
    script := "script.js", json := "json.js", babel := "babel",
    manifest := "manifest-loader.js", resourceReferenceScript := "rrs.js",
    babelConfig := "/b/babel.config.js" }


/-- An all-true-filesystem context compiling the entry page
`/proj/index.hml`, for the flattening scenario. -/
def flatCtxA : LoaderCtx :=
  { resourcePath := "/proj/index.hml", projectPath := "/proj", abilityType := "page",
    deviceLevel := "rich", aceManifestPath := "/proj/manifest.json", fs := fun _ => true,
    entries := [], dl := flatDl, customLang := [] }


/-- The same context compiling the included child `/proj/b.hml`. -/
def flatCtxB : LoaderCtx :=
  { flatCtxA with resourcePath := "/proj/b.hml" }


/-! ## Theorems -/

theorem pushQueryPair_foldl (q : List (String × QVal)) (acc : List String) :
    q.foldl pushQueryPair acc = acc ++ q.filterMap (fun kv =>
      match kv.2 with
      | .qnull => none
      | .qtrue => some kv.1
      | .qarr vs => some (kv.1 ++ "[]=" ++ String.intercalate "," vs)
      | .qval v => some (kv.1 ++ "=" ++ v)) := by
  induction q generalizing acc with
  | nil => simp
  | cons kv t ih =>
    obtain ⟨k, v⟩ := kv
    cases v <;> simp [pushQueryPair, ih, List.filterMap_cons]


/-- C5: Chain descriptor serialization.  The serialized descriptor joins
stage names with `!` preserving stage order; each stage with a non-empty
rendered query appends `?` followed by `&`-joined pairs in insertion order,
where boolean `true` renders as the bare key, a list renders as
`key[]=v1,v2,...`, a null/absent value is omitted entirely, and any other
value renders as `key=value`. -/
theorem stringifyLoaders_spec (loaders : List LoaderSpec) :
    stringifyLoaders loaders = chainDescriptorSpec loaders := by
  unfold stringifyLoaders chainDescriptorSpec
  congr 1
  apply List.map_congr_left
  intro l _
  cases l with
  | str s => rfl
  | obj name q =>
    dsimp only
    rw [pushQueryPair_foldl, List.nil_append]
    generalize (q.getD []).filterMap (fun kv =>
        match kv.2 with
        | .qnull => none
        | .qtrue => some kv.1
        | .qarr vs => some (kv.1 ++ "[]=" ++ String.intercalate "," vs)
        | .qval v => some (kv.1 ++ "=" ++ v)) = pairs
    cases pairs with
    | nil => simp
    | cons p ps => simp [String.append_assoc]


theorem take_eq_cons {l : List Char} {n : Nat} {c : Char} {cs : List Char}
    (h : l.take n = c :: cs) : ∃ t, l = c :: t := by
  cases l with
  | nil => simp at h
  | cons a t =>
    cases n with
    | zero => simp at h
    | succ m =>
      rw [List.take_succ_cons] at h
      injection h with h1 h2
      exact ⟨t, by rw [h1]⟩


theorem head_of_startsWith {s p : String} {c : Char} {cs : List Char}
    (hp : p.data = c :: cs) (h : strStartsWith s p = true) : ∃ t, s.data = c :: t := by
  simp only [strStartsWith, decide_eq_true_eq] at h
  rw [hp] at h
  exact take_eq_cons h


theorem strStartsWith_false_of_head {s p : String} {c c' : Char} {t cs : List Char}
    (hs : s.data = c :: t) (hp : p.data = c' :: cs) (hne : c ≠ c') :
    strStartsWith s p = false := by
  simp only [strStartsWith, decide_eq_false_iff_not]
  intro h
  rw [hp] at h
  obtain ⟨t', ht'⟩ := take_eq_cons h
  rw [hs] at ht'
  exact hne (List.cons.injEq _ _ _ _ ▸ ht').1


theorem error_prefix_excl {s : String} (h : strStartsWith s "ERROR" = true) :
    strStartsWith s "NOTE" = false ∧ strStartsWith s "WARN" = false := by
  obtain ⟨t, hs⟩ := head_of_startsWith (show ("ERROR" : String).data = 'E' :: ['R', 'R', 'O', 'R'] from rfl) h
  exact ⟨strStartsWith_false_of_head hs rfl (by decide),
    strStartsWith_false_of_head hs rfl (by decide)⟩


theorem note_prefix_not_error {s : String} (h : strStartsWith s "NOTE" = true) :
    strStartsWith s "ERROR" = false := by
  obtain ⟨t, hs⟩ := head_of_startsWith (show ("NOTE" : String).data = 'N' :: ['O', 'T', 'E'] from rfl) h
  exact strStartsWith_false_of_head hs rfl (by decide)


theorem warn_prefix_not_error {s : String} (h : strStartsWith s "WARN" = true) :
    strStartsWith s "ERROR" = false := by
  obtain ⟨t, hs⟩ := head_of_startsWith (show ("WARN" : String).data = 'W' :: ['A', 'R', 'N'] from rfl) h
  exact strStartsWith_false_of_head hs rfl (by decide)


theorem logWarnStep_flag_of_not_error {lv : Nat} {rp : String} {e : LogEntry}
    (h : strStartsWith e.reason "ERROR" = false) : (logWarnStep lv rp e).2 = false := by
  unfold logWarnStep
  split
  · rfl
  · split
    · rfl
    · split
      · rename_i hc
        rw [h] at hc
        exact absurd hc.1 (by decide)
      · rfl


theorem logWarnStep_flag_of_error {lv : Nat} {rp : String} {e : LogEntry}
    (h : strStartsWith e.reason "ERROR" = true) (h3 : lv ≤ 3) :
    (logWarnStep lv rp e).2 = true := by
  obtain ⟨hn, hw⟩ := error_prefix_excl h
  unfold logWarnStep
  rw [hn, hw]
  rw [if_neg (by simp), if_neg (by simp), if_pos ⟨h, h3⟩]


theorem logWarnGo_flag_false {lv : Nat} {rp : String} {logs : List LogEntry}
    (h : ∀ e ∈ logs, strStartsWith e.reason "ERROR" = false) :
    (logWarnGo lv rp logs).2 = false := by
  induction logs with
  | nil => rfl
  | cons e es ih =>
    show ((logWarnStep lv rp e).2 || (logWarnGo lv rp es).2) = false
    rw [logWarnStep_flag_of_not_error (h e (List.mem_cons_self e es)),
      ih (fun x hx => h x (List.mem_cons_of_mem e hx))]
    rfl


theorem logWarnGo_flag_true {lv : Nat} {rp : String} {logs : List LogEntry}
    (h3 : lv ≤ 3) (h : ∃ e ∈ logs, strStartsWith e.reason "ERROR" = true) :
    (logWarnGo lv rp logs).2 = true := by
  induction logs with
  | nil => obtain ⟨e, he, _⟩ := h; exact absurd he (List.not_mem_nil e)
  | cons e es ih =>
    show ((logWarnStep lv rp e).2 || (logWarnGo lv rp es).2) = true
    obtain ⟨x, hx, hxe⟩ := h
    rcases List.mem_cons.mp hx with h1 | h1
    · rw [logWarnStep_flag_of_error (h1 ▸ hxe) h3]
      rfl
    · rw [ih ⟨x, h1, hxe⟩, Bool.or_true]


/-- C3 (amended): Diagnostics failure gating at the log levels at which
errors are emitted (1 ≤ logLevel ≤ 3).  A list containing only Note- and
Warn-severity entries yields `failed = false`, and a list containing at
least one Error-severity entry yields `failed = true`, irrespective of
whether the configured level filters the Note/Warn entries.  (Outside that
level range the whole body of `logWarn` is skipped or the Error branch is
filtered too — see the counterexample theorem.) -/
theorem logWarn_gating (lv : Nat) (rp : String) (logs : List LogEntry)
    (h1 : 1 ≤ lv) (h3 : lv ≤ 3) :
    ((∀ e ∈ logs, strStartsWith e.reason "NOTE" = true ∨ strStartsWith e.reason "WARN" = true) →
      (logWarn lv rp logs).2 = false) ∧
    ((∃ e ∈ logs, strStartsWith e.reason "ERROR" = true) →
      (logWarn lv rp logs).2 = true) := by
  unfold logWarn
  rw [if_pos (Nat.lt_of_lt_of_le Nat.zero_lt_one h1)]
  constructor
  · intro h
    exact logWarnGo_flag_false (fun e he =>
      (h e he).elim note_prefix_not_error warn_prefix_not_error)
  · intro h
    exact logWarnGo_flag_true h3 h


/-- C3 (counterexample): the failed flag does depend on the configured log
level — at level 0 the entire sink body is skipped, and at level 4 even the
Error branch is filtered, so a list containing an Error entry returns
`failed = false` in both configurations, contradicting the claim that any
Error entry yields `failed = true` independently of the log-level
configuration. -/
theorem logWarn_error_flag_depends_on_level :
    (logWarn 0 "page.hml" [{ reason := "ERROR: boom" }]).2 = false ∧
    (logWarn 4 "page.hml" [{ reason := "ERROR: boom" }]).2 = false := by
  constructor <;> rfl


/-- Witness for `logWarn_gating` at log level 2 on concrete entry lists. -/
theorem logWarn_gating_witness :
    (logWarn 2 "page.hml" [{ reason := "NOTE: n" }, { reason := "WARNING: w" }]).2 = false ∧
    (logWarn 2 "page.hml" [{ reason := "NOTE: n" }, { reason := "ERROR: e" }]).2 = true :=
  ⟨(logWarn_gating 2 "page.hml" _ (by decide) (by decide)).1 (by decide),
   (logWarn_gating 2 "page.hml" _ (by decide) (by decide)).2 (by decide)⟩


/-- C2 (counterexample): the claimed net effect fails for the quoted event
literal.  The full rewriting pass leaves `"$event.detail"` unchanged — the
quoted-event stage strips the quotes but the bare-event stage immediately
re-quotes it — so the final output is not the unquoted `$event.detail`. -/
theorem rewriteCardExpr_quoted_event_not_stripped :
    rewriteCardExpr "\"$event.detail\"" = "\"$event.detail\"" ∧
    rewriteCardExpr "\"$event.detail\"" ≠ "$event.detail" :=
  ⟨rfl, by decide⟩


/-- C2 (amended): net effect of the full rewriting pass on the four claimed
inputs.  `this.count` rewrites to `"{{count}}"`; `this.count,` rewrites to
`"{{count}}",` with the trailing comma preserved; bare `$event.tap`
rewrites to `"$event.tap"`; but the double-quoted `"$event.detail"` is left
unchanged by the full pass (quote stripping is only the first stage's
effect, immediately undone by the bare-event stage), and a single-quoted
`'$event.detail'` is normalized to the double-quoted form. -/
theorem rewriteCardExpr_net_effects :
    rewriteCardExpr "this.count" = "\"\x7b\x7bcount\x7d\x7d\"" ∧
    rewriteCardExpr "this.count," = "\"\x7b\x7bcount\x7d\x7d\"," ∧
    rewriteCardExpr "$event.tap" = "\"$event.tap\"" ∧
    rewriteCardExpr "\"$event.detail\"" = "\"$event.detail\"" ∧
    rewriteCardExpr "'$event.detail'" = "\"$event.detail\"" :=
  ⟨rfl, rfl, rfl, rfl, rfl⟩


theorem lineRange_split (s m k : Nat) :
    lineRange s (m + k) = lineRange s m ++ lineRange (s + m) k := by
  induction m generalizing s with
  | zero => simp [lineRange]
  | succ m ih =>
    rw [Nat.add_right_comm m 1 k]
    show s :: lineRange (s + 1) (m + k) = lineRange s (m + 1) ++ lineRange (s + (m + 1)) k
    rw [ih (s + 1)]
    show s :: (lineRange (s + 1) m ++ lineRange (s + 1 + m) k) = _
    rw [show s + 1 + m = s + (m + 1) from by omega]
    rfl


theorem mem_lineRange {x s n : Nat} (h : x ∈ lineRange s n) : s ≤ x ∧ x < s + n := by
  induction n generalizing s with
  | zero => exact absurd h (List.not_mem_nil x)
  | succ n ih =>
    rcases List.mem_cons.mp h with h1 | h1
    · omega
    · have := ih h1
      omega


theorem filter_lineRange_false {f : Nat → Bool} {s n : Nat}
    (h : ∀ x ∈ lineRange s n, f x = false) : (lineRange s n).filter f = [] := by
  induction n generalizing s with
  | zero => rfl
  | succ n ih =>
    show List.filter f (s :: lineRange (s + 1) n) = []
    rw [List.filter_cons_of_neg (by simp [h s (List.mem_cons_self _ _)]),
      ih (fun x hx => h x (List.mem_cons_of_mem _ hx))]


theorem consumeMapGo_mapping (smc : Nat → SmcPos) (lines : List String) (idx : Nat)
    (acc : ConsumeOut) :
    (consumeMapGo smc lines idx acc).mapping = acc.mapping ++
      ((lineRange (idx + 1) lines.length).filter
        (fun ln => srcTruthy (smc ln).source)).map
        (fun ln => (mapKey ln, ((smc ln).line, (smc ln).column))) := by
  induction lines generalizing idx acc with
  | nil => simp [consumeMapGo, lineRange]
  | cons l rest ih =>
    show (consumeMapGo smc rest (idx + 1) _).mapping = _
    rw [ih]
    by_cases h : srcTruthy (smc (idx + 1)).source
    · rw [if_pos h]
      show _ ++ _ = acc.mapping ++ List.map _ (List.filter _ ((idx + 1) :: _))
      rw [List.filter_cons_of_pos (by simp [h]), List.map_cons, List.append_assoc]
      rfl
    · rw [if_neg h]
      show _ = acc.mapping ++ List.map _ (List.filter _ ((idx + 1) :: _))
      rw [List.filter_cons_of_neg (by simp [h])]


/-- C9: Sparse source position map.  For a generated text whose consumed
source map resolves exactly the generated lines 2 and 5 (at column 0) to an
original position, the built position map has exactly two entries, keyed by
generated line 2 and generated line 5 in that order; generated lines with
no mapping produce no entry at all. -/
theorem consumeMap_sparse (smc : Nat → SmcPos) (target : String)
    (h5 : 5 ≤ (splitSourceLine target).length)
    (hhit : ∀ ln ∈ lineRange 1 (splitSourceLine target).length,
      (srcTruthy (smc ln).source = true ↔ (ln = 2 ∨ ln = 5))) :
    (consumeMap smc target).mapping.map Prod.fst = [mapKey 2, mapKey 5] := by
  unfold consumeMap
  rw [consumeMapGo_mapping]
  have hsplit : lineRange 1 (splitSourceLine target).length =
      lineRange 1 5 ++ lineRange 6 ((splitSourceLine target).length - 5) := by
    rw [← lineRange_split]
    congr 1
    omega
  have hmem : ∀ ln ∈ lineRange 1 5, ln ∈ lineRange 1 (splitSourceLine target).length := by
    intro ln hln
    rw [hsplit]
    exact List.mem_append_left _ hln
  have h1 : srcTruthy (smc 1).source = false := by
    have := hhit 1 (hmem 1 (by norm_num [lineRange]))
    rcases hb : srcTruthy (smc 1).source with _ | _
    · rfl
    · exact absurd (this.mp hb) (by omega)
  have h2 : srcTruthy (smc 2).source = true :=
    (hhit 2 (hmem 2 (by norm_num [lineRange]))).mpr (Or.inl rfl)
  have h3 : srcTruthy (smc 3).source = false := by
    have := hhit 3 (hmem 3 (by norm_num [lineRange]))
    rcases hb : srcTruthy (smc 3).source with _ | _
    · rfl
    · exact absurd (this.mp hb) (by omega)
  have h4 : srcTruthy (smc 4).source = false := by
    have := hhit 4 (hmem 4 (by norm_num [lineRange]))
    rcases hb : srcTruthy (smc 4).source with _ | _
    · rfl
    · exact absurd (this.mp hb) (by omega)
  have h5' : srcTruthy (smc 5).source = true :=
    (hhit 5 (hmem 5 (by norm_num [lineRange]))).mpr (Or.inr rfl)
  have htail : (lineRange 6 ((splitSourceLine target).length - 5)).filter
      (fun ln => srcTruthy (smc ln).source) = [] := by
    apply filter_lineRange_false
    intro x hx
    have hge := mem_lineRange hx
    have hmemx : x ∈ lineRange 1 (splitSourceLine target).length := by
      rw [hsplit]
      exact List.mem_append_right _ hx
    rcases hb : srcTruthy (smc x).source with _ | _
    · rfl
    · exact absurd ((hhit x hmemx).mp hb) (by omega)
  rw [hsplit, List.filter_append, htail, List.append_nil]
  show List.map Prod.fst ([] ++ List.map _ (List.filter _ [1, 2, 3, 4, 5])) = _
  rw [List.nil_append]
  rw [show List.filter (fun ln => srcTruthy (smc ln).source) [1, 2, 3, 4, 5] = [2, 5] from by
    rw [List.filter_cons_of_neg (by simp [h1]), List.filter_cons_of_pos (by simp [h2]),
      List.filter_cons_of_neg (by simp [h3]), List.filter_cons_of_neg (by simp [h4]),
      List.filter_cons_of_pos (by simp [h5']), List.filter_nil]]
  rfl


/-- Witness for `consumeMap_sparse` on a concrete five-line text and a
concrete consumed map resolving only lines 2 and 5. -/
theorem consumeMap_sparse_witness :
    (consumeMap
      (fun ln => if ln = 2 ∨ ln = 5 then ⟨some "page.hml", 10, 3⟩ else ⟨none, 0, 0⟩)
      "a\nb\nc\nd\ne").mapping.map Prod.fst = [mapKey 2, mapKey 5] :=
  consumeMap_sparse _ _ (by decide) (by decide)


theorem replacePropsObjStep_normalized {kv : String × JVal}
    (hkv : isNormalizedProp kv.2 = true)
    (lgs : List LogEntry) (done : List (String × JVal)) :
    replacePropsObjStep (lgs, .ok done) kv = (lgs, .ok (done ++ [kv])) := by
  obtain ⟨vfs, hv⟩ : ∃ vfs, kv.2 = .jobj vfs := by
    cases hv : kv.2 <;> simp [hv, isNormalizedProp] at hkv ⊢
  have hplain : isPlainObject kv.2 = true := by rw [hv]; rfl
  have hown : jsHasOwn kv.2 "default" = .ok true := by
    rw [hv]
    show Except.ok (vfs.any (fun kv => kv.1 = "default")) = Except.ok true
    rw [hv] at hkv
    rw [show vfs.any (fun kv => kv.1 = "default") = true from hkv]
  unfold replacePropsObjStep
  dsimp only
  rw [hown]
  simp [hplain]


theorem replacePropsArray_obj_go (fs : List (String × JVal))
    (h : ∀ kv ∈ fs, isNormalizedProp kv.2 = true)
    (lgs : List LogEntry) (done : List (String × JVal)) :
    fs.foldl replacePropsObjStep (lgs, .ok done) = (lgs, .ok (done ++ fs)) := by
  induction fs generalizing done with
  | nil => simp
  | cons kv t ih =>
    rw [List.foldl_cons, replacePropsObjStep_normalized (h kv (List.mem_cons_self kv t)),
      ih (fun x hx => h x (List.mem_cons_of_mem kv hx)) (done ++ [kv]), List.append_assoc]
    rfl


/-- C8: Props normalization and its idempotence.  Normalizing the props
value `["a","b"]` yields `{a:{default:''}, b:{default:''}}` with no
warnings; any props value already in normalized object-of-objects form (all
entry values objects owning a `default` key) is returned unchanged with no
warnings — hence normalization is idempotent on its own object outputs. -/
theorem replacePropsArray_normalization (fs : List (String × JVal))
    (h : ∀ kv ∈ fs, isNormalizedProp kv.2 = true) :
    replacePropsArray (.jarr [.jstr "a", .jstr "b"]) =
      ([], .ok (.jobj [("a", .jobj [("default", .jstr "")]),
                       ("b", .jobj [("default", .jstr "")])])) ∧
    replacePropsArray (.jobj fs) = ([], .ok (.jobj fs)) ∧
    replacePropsArray (.jobj [("a", .jobj [("default", .jstr "")]),
                              ("b", .jobj [("default", .jstr "")])]) =
      ([], .ok (.jobj [("a", .jobj [("default", .jstr "")]),
                       ("b", .jobj [("default", .jstr "")])])) := by
  refine ⟨rfl, ?_, rfl⟩
  unfold replacePropsArray
  rw [if_neg (by simp [isFalsy])]
  show (let r := fs.foldl replacePropsObjStep ([], Except.ok []);
    (r.1, r.2.map JVal.jobj)) = _
  rw [replacePropsArray_obj_go fs h [] []]
  rfl


/-- Witness for `replacePropsArray_normalization` at the normalized object
produced by the array case. -/
theorem replacePropsArray_normalization_witness :
    replacePropsArray (.jobj [("a", .jobj [("default", .jstr "")]),
                              ("b", .jobj [("default", .jstr "")])]) =
      ([], .ok (.jobj [("a", .jobj [("default", .jstr "")]),
                       ("b", .jobj [("default", .jstr "")])])) :=
  (replacePropsArray_normalization
    [("a", .jobj [("default", .jstr "")]), ("b", .jobj [("default", .jstr "")])]
    (by
      intro kv hkv
      rcases List.mem_cons.mp hkv with h | h
      · subst h; rfl
      · rcases List.mem_cons.mp h with h2 | h2
        · subst h2; rfl
        · exact absurd h2 (List.not_mem_nil kv))).2.1


/-- C10: in card mode the json loader's generated module text is exactly
`{}` for every input — on successful normalization and on parse failure
alike, so structured sections can reach the aggregation sink only through
the recorded `compileJson` calls; outside card mode the loader returns
`module.exports = <source>`. -/
theorem jsonLoader_card_text (ctx : JsonCtx)
    (evalStringify : String → Except String (String × JVal)) (source : String) :
    (ctx.deviceLevel = "card" → (jsonLoader ctx evalStringify source).output = "\x7b\x7d") ∧
    (ctx.deviceLevel ≠ "card" →
      (jsonLoader ctx evalStringify source).output = "module.exports = " ++ source) := by
  constructor
  · intro h
    unfold jsonLoader
    rw [if_pos h]
    cases (parseCard ctx evalStringify source).thrown <;> rfl
  · intro h
    unfold jsonLoader
    rw [if_neg h]


/-- Witness for `jsonLoader_card_text` in both modes at concrete inputs. -/
theorem jsonLoader_card_text_witness :
    (jsonLoader ⟨"/p/comp.json", "?comp", [], "/out", "/cwd", "card"⟩
      (fun _ => .error "SyntaxError: boom") "x: 1").output = "\x7b\x7d" ∧
    (jsonLoader ⟨"/p/comp.json", "?comp", [], "/out", "/cwd", "rich"⟩
      (fun _ => .error "SyntaxError: boom") "x: 1").output = "module.exports = " ++ "x: 1" :=
  ⟨(jsonLoader_card_text _ _ _).1 rfl,
   (jsonLoader_card_text _ _ _).2 (by decide)⟩


/-- C7: card-literal parse failure containment.  When the normalizer's
literal evaluation fails, the loader catches the exception, logs an Error
diagnostic naming the failing file (with the exception text appended), and
returns the degraded module text `'{}'` — no exception propagates to the
caller, which in this embedding is witnessed by `jsonLoader` being a total
function whose failure branch is exactly this value. -/
theorem jsonLoader_parse_failure_contained (ctx : JsonCtx)
    (evalStringify : String → Except String (String × JVal)) (source e : String)
    (hcard : ctx.deviceLevel = "card")
    (hfail : evalStringify (cardProcessedText ctx.resourcePath source) = .error e) :
    jsonLoader ctx evalStringify source =
      { output := "\x7b\x7d",
        logs := [⟨"ERROR: Failed to parse the file : " ++ ctx.resourcePath ++ "\n" ++ e, 0, 0⟩],
        calls := [] } := by
  unfold jsonLoader parseCard
  rw [if_pos hcard, hfail]
  rfl


/-- Witness for `jsonLoader_parse_failure_contained` at a concrete failing
evaluation. -/
theorem jsonLoader_parse_failure_contained_witness :
    jsonLoader ⟨"/p/comp.json", "?comp", [], "/out", "/cwd", "card"⟩
      (fun _ => .error "SyntaxError: boom") "bad \x7b" =
      { output := "\x7b\x7d",
        logs := [⟨"ERROR: Failed to parse the file : /p/comp.json\nSyntaxError: boom", 0, 0⟩],
        calls := [] } :=
  jsonLoader_parse_failure_contained _ _ _ _ rfl rfl


/-- C6: Script chain resolution.  The stage list is the base script stage
followed by the custom per-dialect transform when one is configured (the
default babel + resource-reference-rewriting pair omitted entirely), or by
that default pair otherwise; and exactly when the asset is an app script,
the ability type is `page`, and the manifest file exists on disk, a
manifest-injection stage parameterized with the asset's source path is
appended last.  `stringifyLoaders` of this list is the emitted chain
descriptor. -/
theorem scriptLoaderLoaders_spec (ctx : LoaderCtx) (config : LoaderConfig)
    (customLoader : Option String) :
    scriptLoaderLoaders ctx config customLoader =
      (match customLoader with
       | some c => [.obj ctx.dl.script none, .str c]
       | none => [.obj ctx.dl.script none, .obj ctx.dl.babel (some (babelQuery ctx)),
                  .obj ctx.dl.resourceReferenceScript none]) ++
      (if config.app = true ∧ ctx.abilityType = "page" ∧ ctx.fs ctx.aceManifestPath = true then
        [.obj ctx.dl.manifest (some [("path",
          match config.source with | some s => QVal.qval s | none => QVal.qnull)])]
       else []) := by
  unfold scriptLoaderLoaders babelQuery
  cases customLoader <;>
    by_cases h : config.app = true ∧ ctx.abilityType = "page" ∧ ctx.fs ctx.aceManifestPath = true <;>
      by_cases hR : ctx.deviceLevel = dlRICH <;>
        simp [h, hR]


/-- C4 (amended): missing-asset policy.  A missing sibling script degrades
to "no script": `loadPageFindJs` returns no require string, a
console-visible note only, and no diagnostic.  A custom-element reference
whose relative/rooted declared source path does not exist makes the
element block compile to empty output with an Error diagnostic — the
`elements` map untouched and the element requires dropped — while the unit
itself still emits its other references (see the counterexample theorem
for the latter). -/
theorem missing_asset_policy (ctx : LoaderCtx) (filename parentPath : String)
    (els : ElementsMap) (s0 : String) (rest : List PageElement)
    (hjs : ctx.fs (filename ++ ".js") = false)
    (hs0 : s0 ≠ "")
    (hrel : strStartsWith (withHmlExt s0) "/" = true ∨ strStartsWith (withHmlExt s0) "." = true)
    (hmiss : ctx.fs (pathJoin (pathDirname ctx.resourcePath) (withHmlExt s0)) = false) :
    loadPageFindJs ctx filename = ⟨false, "", ["missing " ++ filename ++ ".js"]⟩ ∧
    loadPageCheckElementLength ctx ({ src := some s0 } :: rest) parentPath els =
      { output := "", els := els,
        logs := [⟨"ERROR: The file path of custom element does not exist, src: " ++
          withHmlExt s0, 0, 0⟩] } := by
  constructor
  · unfold loadPageFindJs
    rw [if_pos hjs]
  · unfold loadPageCheckElementLength loadPageCheckElementLengthGo
    simp [hs0, hmiss, hrel]


/-- C4 (counterexample): a unit with a missing relative custom-element
source does not compile to empty generated output.  The Error diagnostic
is emitted and the element-reference block is empty, but the page output
still contains its template reference and mode wrapper. -/
theorem missing_element_unit_output_not_empty :
    (loadPage emptyFsCtx "index" false false [{ src := some "./comp" }]
      "/proj/pages/index.hml" []).output ≠ "" ∧
    (loadPage emptyFsCtx "index" false false [{ src := some "./comp" }]
      "/proj/pages/index.hml" []).logs =
      [⟨"ERROR: The file path of custom element does not exist, src: ./comp.hml", 0, 0⟩] := by
  constructor
  · decide
  · rfl


/-- Witness for `missing_asset_policy` on the concrete empty-filesystem
context. -/
theorem missing_asset_policy_witness :
    loadPageFindJs emptyFsCtx "/proj/pages/index" =
      ⟨false, "", ["missing /proj/pages/index.js"]⟩ ∧
    loadPageCheckElementLength emptyFsCtx [{ src := some "./comp" }]
      "/proj/pages/index.hml" [] =
      { output := "", els := [],
        logs := [⟨"ERROR: The file path of custom element does not exist, src: ./comp.hml",
          0, 0⟩] } :=
  missing_asset_policy emptyFsCtx "/proj/pages/index" "/proj/pages/index.hml" [] "./comp" []
    rfl (by decide) (by decide) rfl


/-- C1: Scope flattening of the component reference graph.  Let A be an
entry page registering itself, whose markup includes child B under name
"x", and let B's page in turn include C under name "x".  When B is
compiled (required with `?name=x&parentPath=A`), its recorded effective
parent resolves to A — `r3.parentPath = pA` — so registering C's name is
checked against, and collides with, A's name scope: the collision lookup
happens in the name set keyed by A's path, not B's (the same registration
keyed by B's own path finds no collision at all). -/
theorem scope_flattening (ctxA ctxB : LoaderCtx) (pA pB : String)
    (r1 : RegisterOut) (r2 : ElemLoopOut) (r3 : RegisterOut)
    (hA : ctxA.resourcePath = pA) (hB : ctxB.resourcePath = pB)
    (hAB : pA ≠ pB) (hpA : pA ≠ "")
    (hEA : ctxA.entries = []) (hEB : ctxB.entries = [])
    (hnx : pathParseName pA ≠ "x") (hnp : pathParseName pA ≠ "parent")
    (hfsB : ctxA.fs (pathJoin (pathDirname pA) "./b.hml") = true)
    (hfsC : ctxB.fs (pathJoin (pathDirname pB) "./c.hml") = true)
    (hr1 : r1 = loaderRegister [] pA true none none)
    (hr2 : r2 = loadPageCheckElementLength ctxA [{ src := some "./b", name := some "x" }]
      r1.parentPath r1.els)
    (hr3 : r3 = loaderRegister r2.els pB false (some "x") (some pA)) :
    r3.parentPath = pA ∧
    (loadPageCheckElementLength ctxB [{ src := some "./c", name := some "x" }]
      r3.parentPath r3.els).logs =
      [⟨"ERROR: The element name can not be same with the page \"x\" (ignore case).", 0, 0⟩] ∧
    (loadPageCheckElementLength ctxB [{ src := some "./c", name := some "x" }]
      pB r3.els).logs = [] := by
  have hnil : ∀ (c : LoaderCtx) (p : String) (acc : ElemLoopOut),
      loadPageCheckElementLengthGo c p [] acc = acc := fun _ _ _ => rfl
  have eb : withHmlExt "./b" = "./b.hml" := rfl
  have ec : withHmlExt "./c" = "./c.hml" := rfl
  have ex : strToLower "x" = "x" := rfl
  have h1 : r1 = ⟨[(pA, [(pathParseName pA, EVal.etrue)])], pathParseName pA, pA⟩ := by
    rw [hr1]; rfl
  have h2 : r2.els = [(pA, [(pathParseName pA, EVal.etrue), ("x", EVal.etrue)])] := by
    rw [hr2, h1]
    unfold loadPageCheckElementLength loadPageCheckElementLengthGo
    simp [hA, hEA, hfsB, hnx, eb, ex, hnil, checkEntry, elsGet, elsSet, recGet, recSet,
      evTruthy, List.find?]
  have h3 : r3 = ⟨[(pA, [(pathParseName pA, EVal.etrue), ("x", EVal.etrue)]),
                   (pB, [("parent", EVal.estr pA)])], "x", pA⟩ := by
    rw [hr3, h2]
    unfold loaderRegister
    simp [hAB, hpA, hnp, elsGet, elsSet, recGet, recSet, evTruthy, List.find?,
      Ne.symm hAB]
  refine ⟨by rw [h3], ?_, ?_⟩
  · rw [h3]
    unfold loadPageCheckElementLength loadPageCheckElementLengthGo
    simp [hB, hEB, hfsC, hnx, ec, ex, hnil, checkEntry, elsGet, elsSet, recGet, recSet,
      evTruthy, List.find?]
  · rw [h3]
    unfold loadPageCheckElementLength loadPageCheckElementLengthGo
    simp [hB, hEB, hfsC, hAB, Ne.symm hAB, ec, ex, hnil, checkEntry, elsGet, elsSet,
      recGet, recSet, evTruthy, List.find?]


/-- Witness for `scope_flattening` on concrete paths: the entry
`/proj/index.hml` includes `./b` under "x", and `./b`'s page includes
`./c` under "x". -/
theorem scope_flattening_witness :
    (loaderRegister (loadPageCheckElementLength flatCtxA
        [{ src := some "./b", name := some "x" }]
        (loaderRegister [] "/proj/index.hml" true none none).parentPath
        (loaderRegister [] "/proj/index.hml" true none none).els).els
      "/proj/b.hml" false (some "x") (some "/proj/index.hml")).parentPath =
        "/proj/index.hml" ∧
    (loadPageCheckElementLength flatCtxB [{ src := some "./c", name := some "x" }]
      (loaderRegister (loadPageCheckElementLength flatCtxA
          [{ src := some "./b", name := some "x" }]
          (loaderRegister [] "/proj/index.hml" true none none).parentPath
          (loaderRegister [] "/proj/index.hml" true none none).els).els
        "/proj/b.hml" false (some "x") (some "/proj/index.hml")).parentPath
      (loaderRegister (loadPageCheckElementLength flatCtxA
          [{ src := some "./b", name := some "x" }]
          (loaderRegister [] "/proj/index.hml" true none none).parentPath
          (loaderRegister [] "/proj/index.hml" true none none).els).els
        "/proj/b.hml" false (some "x") (some "/proj/index.hml")).els).logs =
      [⟨"ERROR: The element name can not be same with the page \"x\" (ignore case).", 0, 0⟩] ∧
    (loadPageCheckElementLength flatCtxB [{ src := some "./c", name := some "x" }]
      "/proj/b.hml"
      (loaderRegister (loadPageCheckElementLength flatCtxA
          [{ src := some "./b", name := some "x" }]
          (loaderRegister [] "/proj/index.hml" true none none).parentPath
          (loaderRegister [] "/proj/index.hml" true none none).els).els
        "/proj/b.hml" false (some "x") (some "/proj/index.hml")).els).logs = [] :=
  scope_flattening flatCtxA flatCtxB "/proj/index.hml" "/proj/b.hml" _ _ _
    rfl rfl (by decide) (by decide) rfl rfl (by decide) (by decide) rfl rfl rfl rfl rfl


end WeexLoader

